import Mathlib

/-!
# Verification of the restorable-image registry (`internal/restorable/images.go`)

This file embeds the image registry of the repository's GPU-resource
survival layer in Lean and proves the specified properties about it.

The registry itself (`type images`, its methods `resolveStalePixels`,
`resetPixelsIfDependingOn`, `restore`, `clearVolatileImages`, and the
package-level wrappers `ResolveStalePixels`, `Restore`,
`ClearVolatileImages`) is translated directly from
`src/internal/restorable/images.go`.  The per-image type `Image` and its
methods (`resolveStalePixels`, `makeStaleIfDependingOn`, `restore`,
`clearIfVolatile`, `hasDependency`, `readPixels`, `draw`) are not part of
the available sources; they are modelled from the specification
(sections 3, 4.1, 4.2 and 4.4), as indicated on each definition.

Modelling conventions:
* The Go map `images map[*Image]struct{}` becomes a `List Image`; the
  list order stands for the one-run total iteration order (the spec only
  requires "unspecified-but-deterministic order").  Pointer identity
  becomes the `id : Nat` field, assumed distinct (`Nodup`) where a claim
  needs it.
* Pixel content is abstracted to a single `Nat` value; a draw combines
  destination content, source content and the opaque blend payload with
  a fixed injective combinator.  Round-trip correctness only needs that
  replay recomputes the same combination.
* Fallibility of the external GPU binding (read-back and replay
  failures) is modelled by per-image flags `readFails` / `restoreFails`.
* The process-wide singleton `theImages` is threaded explicitly: every
  operation takes and returns the registry state.
* Registry operations additionally return a trace of the per-image
  method invocations they performed, so that claims of the form
  "invokes m on every live image" / "performs no scan" are statable.
-/

/-- One per-image method invocation performed by a registry operation. -/
inductive Event where
  | restoreImg (id : Nat)
  | resolveImg (id : Nat)
  | makeStale (id : Nat)
  | clearVol (id : Nat)
  deriving Repr, DecidableEq

/-- Errors surfaced by per-image operations during a registry pass. -/
inductive Err where
  | restoreError (id : Nat)
  | readError (id : Nat)
  deriving Repr, DecidableEq

/-- Modelled from the spec: a Draw Log Entry records the identity of the
source image read from, together with the geometry/blend parameters,
"an opaque payload forwarded verbatim to the GPU Binding on replay". -/
structure DrawLogEntry where
  srcId : Nat
  payload : Nat
  deriving Repr, DecidableEq

/-- The fixed combinator standing for one GPU draw: it merges the
destination content, the source content and the opaque payload.  Its
exact value is irrelevant to the properties proved here; replay is
correct when it recomputes the same combination on the same inputs. -/
def combine (dest src payload : Nat) : Nat :=
  Nat.pair (Nat.pair dest src) payload + 1

/-- Modelled from the spec: a Restorable Image (section 3).  `pixels` is
the content of the exclusively owned GPU surface, `basePixels` the last
base (upload or clear), `drawLog` the ordered provenance since that
base, `pixelCache` the optional CPU-side cache with its `stale` flag,
`volatile` the per-frame-scratch flag.  `readFails` / `restoreFails`
model a failing external GPU binding for this image's read-back or
replay. -/
structure Image where
  id : Nat
  basePixels : Nat
  pixels : Nat
  drawLog : List DrawLogEntry
  pixelCache : Option Nat
  stale : Bool
  volatile : Bool
  readFails : Bool
  restoreFails : Bool
  deriving Repr, DecidableEq

/-- Translated from `src/internal/restorable/images.go`: the registry
state.  `images` is the live-image set, `lastChecked` the single-slot
memoization of `resetPixelsIfDependingOn` (held as the image identity,
standing for the Go pointer).  The mutex is dropped: the embedding is
sequential. -/
structure Images where
  images : List Image
  lastChecked : Option Nat
  deriving Repr, DecidableEq

/-- Look up a live image by identity (stands for following a pointer
into the live set). -/
def findImg (s : Images) (i : Nat) : Option Image :=
  s.images.find? (fun img => img.id = i)

/-- Replace the image with `img.id` in the live set (stands for the Go
code mutating the pointed-to image in place). -/
def setImg (s : Images) (img : Image) : Images :=
  { s with images := s.images.map (fun j => if j.id = img.id then img else j) }

/-- Whether some live image has the given identity. -/
def isLive (s : Images) (i : Nat) : Bool :=
  s.images.any (fun img => img.id = i)

namespace Image

/-- Modelled from the spec (4.2): staleness resolution.  "If pixelCache
is absent or flagged stale, pull pixels from the GPU surface into
pixelCache and clear the stale flag"; the pull can fail with a
`GPUReadError` (modelled by `readFails`). -/
def resolveStalePixels (img : Image) : Except Err Image :=
  match img.pixelCache with
  | some _ =>
    if img.stale then
      if img.readFails then .error (.readError img.id)
      else .ok { img with pixelCache := some img.pixels, stale := false }
    else .ok img
  | none =>
    if img.readFails then .error (.readError img.id)
    else .ok { img with pixelCache := some img.pixels, stale := false }

/-- Modelled from the spec (4.1): "If any DrawLogEntry's
sourceImageIdentity equals `target`'s identity, invalidates pixelCache
(sets staleness true) — but does not discard drawLog". -/
def makeStaleIfDependingOn (img : Image) (target : Nat) : Image :=
  if img.drawLog.any (fun e => e.srcId = target) then
    { img with stale := true }
  else img

/-- Modelled from the spec (4.5/3): "If `isVolatile`, issues a clear to
default color, resets drawLog to empty, and marks pixelCache
valid-and-empty. No-op otherwise."  The default clear content is `0`. -/
def clearIfVolatile (img : Image) : Image :=
  if img.volatile then
    { img with pixels := 0, drawLog := [], pixelCache := some 0, stale := false }
  else img

/-- Modelled from the spec (4.4): an image is "independent" when its
"drawLog contains no reference to another still-live image", dependent
when "it references at least one other live image".  The registry state
supplies the liveness information. -/
def hasDependency (s : Images) (img : Image) : Bool :=
  img.drawLog.any (fun e => decide (e.srcId ≠ img.id) && isLive s e.srcId)

/-- Replay the draw log against the current live set: each entry draws
the source image's current content onto the accumulator.  Returns `none`
when an entry references a disposed (non-live) source. -/
def replay (s : Images) : Nat → List DrawLogEntry → Option Nat
  | p, [] => some p
  | p, e :: rest =>
    match findImg s e.srcId with
    | some src => replay s (combine p src.pixels e.payload) rest
    | none => none

/-- Modelled from the spec (4.4/4.1): per-image restore.  A volatile
image is cleared, not replayed (its state "is defined to be cleared").
Otherwise the surface is reinitialized and the last base followed by
every DrawLogEntry is replayed in original order; the pass "fails with
`RestoreError` carrying the underlying GPU error if any replayed
operation fails" (a failing binding or a disposed source).  The cache is
discarded: it "becomes invalid the instant the surface is mutated by
... a restore". -/
def restore (s : Images) (img : Image) : Except Err Image :=
  if img.restoreFails then .error (.restoreError img.id)
  else if img.volatile then
    .ok { img with pixels := 0, drawLog := [], pixelCache := some 0, stale := false }
  else
    match replay s img.basePixels img.drawLog with
    | some p => .ok { img with pixels := p, pixelCache := none, stale := false }
    | none => .error (.restoreError img.id)

/-- Modelled from the spec (4.1): readPixels "resolves staleness (pulls
pixels from GPU if pixelCache is absent/stale), returns a copy" from the
cache.  Only the returned content matters to the claims, so the
cache-updated image is dropped. -/
def readPixels (img : Image) : Except Err Nat :=
  match img.resolveStalePixels with
  | .error e => .error e
  | .ok img' => .ok (img'.pixelCache.getD img'.pixels)

end Image

namespace Images

/-- Translated from `images.go` (`add`). -/
def add (s : Images) (img : Image) : Images :=
  { s with images := s.images ++ [img] }

/-- Translated from `images.go` (`remove`). -/
def remove (s : Images) (i : Nat) : Images :=
  { s with images := s.images.filter (fun img => decide (img.id ≠ i)) }

/-- The loop body of `images.resolveStalePixels`: resolve each listed
image in turn, short-circuiting on the first error (the Go `for` loop
with `return err`).  Images resolved before a failure keep their
resolved state. -/
def resolveSeq (s : Images) : List Nat → Option Err × Images × List Event
  | [] => (none, s, [])
  | i :: rest =>
    match findImg s i with
    | none => resolveSeq s rest
    | some img =>
      match img.resolveStalePixels with
      | .error e => (some e, s, [.resolveImg i])
      | .ok img' =>
        let r := resolveSeq (setImg s img') rest
        (r.1, r.2.1, .resolveImg i :: r.2.2)

/-- Translated from `images.go` (`images.resolveStalePixels`):
```go
i.lastChecked = nil
for img := range i.images {
    if err := img.resolveStalePixels(); err != nil { return err }
}
return nil
``` -/
def resolveStalePixels (s : Images) : Option Err × Images × List Event :=
  resolveSeq { s with lastChecked := none } (s.images.map Image.id)

/-- Translated from `images.go` (`images.resetPixelsIfDependingOn`):
nil target returns immediately; a target equal to `lastChecked` returns
immediately; otherwise `lastChecked` is set and every live image gets
`makeStaleIfDependingOn(target)`. -/
def resetPixelsIfDependingOn (s : Images) (target : Option Nat) :
    Images × List Event :=
  match target with
  | none => (s, [])
  | some t =>
    if s.lastChecked = some t then (s, [])
    else
      ({ images := s.images.map (fun img => img.makeStaleIfDependingOn t),
         lastChecked := some t },
       s.images.map (fun img => Event.makeStale img.id))

/-- The loop body of `images.restore`: restore each listed image in
turn against the evolving live set, short-circuiting on the first error
(the two Go `for` loops with `return err`).  Images restored before a
failure keep their restored state; no rollback happens. -/
def restoreSeq (s : Images) : List Nat → Option Err × Images × List Event
  | [] => (none, s, [])
  | i :: rest =>
    match findImg s i with
    | none => restoreSeq s rest
    | some img =>
      match Image.restore s img with
      | .error e => (some e, s, [.restoreImg i])
      | .ok img' =>
        let r := restoreSeq (setImg s img') rest
        (r.1, r.2.1, .restoreImg i :: r.2.2)

/-- The processing order of `images.restore`: the single pass over the
live set that appends each image to `imagesWithoutDependency` or
`imagesWithDependency` yields, for a list, the images without dependency
in iteration order followed by the images with dependency in iteration
order. -/
def restoreOrder (s : Images) : List Nat :=
  (s.images.filter (fun img => !Image.hasDependency s img)).map Image.id
    ++ (s.images.filter (fun img => Image.hasDependency s img)).map Image.id

/-- Translated from `images.go` (`images.restore`): partition the live
set by `hasDependency`, restore the images without dependency first,
then the images with dependency, returning the first error. -/
def restore (s : Images) : Option Err × Images × List Event :=
  restoreSeq s (restoreOrder s)

/-- Translated from `images.go` (`images.clearVolatileImages`): invoke
`clearIfVolatile` on every live image; no error path exists. -/
def clearVolatileImages (s : Images) : Images × List Event :=
  ({ s with images := s.images.map Image.clearIfVolatile },
   s.images.map (fun img => Event.clearVol img.id))

end Images

/-- Translated from `images.go` (`func ResolveStalePixels() error`): the
package-level entry point delegates to the singleton registry, here
threaded explicitly. -/
def ResolveStalePixels (s : Images) : Option Err × Images × List Event :=
  s.resolveStalePixels

/-- Translated from `images.go` (`func Restore() error`). -/
def Restore (s : Images) : Option Err × Images × List Event :=
  s.restore

/-- Translated from `images.go` (`func ClearVolatileImages()`). -/
def ClearVolatileImages (s : Images) : Images × List Event :=
  s.clearVolatileImages

/-- Modelled from the spec (4.1): `draw(source, ...)` on a destination
image resolves nothing pixel-relevant here beyond the effects recorded:
it issues the draw to the GPU binding (the `combine` of the two
contents and the payload), appends a DrawLogEntry, invalidates the
destination's pixelCache, and then tells the registry that images
depending on the destination must be re-flagged stale
(`resetPixelsIfDependingOn`).  A draw whose source or destination is
not live is a no-op here (the spec makes it a `DependencyError`; the
error path is irrelevant to the claims using `draw`). -/
def draw (s : Images) (destId srcId payload : Nat) : Images :=
  match findImg s srcId, findImg s destId with
  | some src, some dest =>
    let dest' := { dest with
      pixels := combine dest.pixels src.pixels payload,
      drawLog := dest.drawLog ++ [DrawLogEntry.mk srcId payload],
      pixelCache := none,
      stale := false }
    (Images.resetPixelsIfDependingOn (setImg s dest') (some destId)).1
  | _, _ => s

/-! ## Basic lemmas about the state operations -/

theorem setImg_lastChecked (s : Images) (img : Image) :
    (setImg s img).lastChecked = s.lastChecked := rfl

theorem find?_map_of_id_preserving (g : Image → Image)
    (hg : ∀ img, (g img).id = img.id) (l : List Image) (i : Nat) :
    (l.map g).find? (fun img => img.id = i)
      = (l.find? (fun img => img.id = i)).map g := by
  induction l with
  | nil => rfl
  | cons a l ih =>
    by_cases h : a.id = i
    · simp [List.find?_cons, hg, h]
    · simp [List.find?_cons, hg, h, ih]

theorem map_id_of_id_preserving (g : Image → Image)
    (hg : ∀ img, (g img).id = img.id) (l : List Image) :
    (l.map g).map Image.id = l.map Image.id := by
  rw [List.map_map]
  exact List.map_congr_left (fun a _ => hg a)

theorem setImg_id_preserving (img j : Image) :
    ((fun j => if j.id = img.id then img else j) j).id = j.id := by
  by_cases h : j.id = img.id <;> simp [h]

theorem setImg_map_id (s : Images) (img : Image) :
    (setImg s img).images.map Image.id = s.images.map Image.id :=
  map_id_of_id_preserving _ (setImg_id_preserving img) s.images

theorem findImg_isSome (s : Images) (i : Nat) :
    (findImg s i).isSome = isLive s i := by
  rw [Bool.eq_iff_iff]
  simp [findImg, isLive, List.find?_isSome, List.any_eq_true]

theorem isLive_setImg (s : Images) (img : Image) (i : Nat) :
    isLive (setImg s img) i = isLive s i := by
  rw [Bool.eq_iff_iff]
  simp only [isLive, List.any_eq_true]
  constructor
  · rintro ⟨x, hx, hid⟩
    rcases List.mem_map.mp hx with ⟨y, hy, rfl⟩
    exact ⟨y, hy, by rw [← setImg_id_preserving img y]; exact hid⟩
  · rintro ⟨y, hy, hid⟩
    exact ⟨_, List.mem_map_of_mem _ hy,
      by rw [setImg_id_preserving img y]; exact hid⟩

theorem makeStale_fields (img : Image) (t : Nat) :
    (img.makeStaleIfDependingOn t).id = img.id
    ∧ (img.makeStaleIfDependingOn t).basePixels = img.basePixels
    ∧ (img.makeStaleIfDependingOn t).pixels = img.pixels
    ∧ (img.makeStaleIfDependingOn t).drawLog = img.drawLog
    ∧ (img.makeStaleIfDependingOn t).pixelCache = img.pixelCache
    ∧ (img.makeStaleIfDependingOn t).volatile = img.volatile
    ∧ (img.makeStaleIfDependingOn t).readFails = img.readFails
    ∧ (img.makeStaleIfDependingOn t).restoreFails = img.restoreFails := by
  unfold Image.makeStaleIfDependingOn
  split <;> simp

/-! ## The frame claims about `resetPixelsIfDependingOn` -/

/-- C9: calling `resetPixelsIfDependingOn` with a nil target (a disposed
image) is a complete no-op: the state — live-image set, staleness flags
and memoized last-checked slot — is returned unchanged and no per-image
method is invoked. -/
theorem resetPixelsIfDependingOn_nil_noop (s : Images) :
    Images.resetPixelsIfDependingOn s none = (s, []) := rfl

/-- C6: two consecutive `resetPixelsIfDependingOn` calls with the same
non-nil target perform the per-image dependency scan at most on the
first call: the second call invokes `makeStaleIfDependingOn` on no image
(empty trace) and returns the registry state unchanged. -/
theorem resetPixelsIfDependingOn_idempotent (s : Images) (t : Nat) :
    Images.resetPixelsIfDependingOn
        (Images.resetPixelsIfDependingOn s (some t)).1 (some t)
      = ((Images.resetPixelsIfDependingOn s (some t)).1, []) := by
  unfold Images.resetPixelsIfDependingOn
  by_cases h : s.lastChecked = some t <;> simp [h]

/-- C5: a call with a non-nil target that differs from the memoized
last-checked image scans every live image: it invokes
`makeStaleIfDependingOn target` on each of them (the trace lists every
live image), and consequently every live image whose drawLog references
the target ends up marked stale. -/
theorem resetPixelsIfDependingOn_scans_all (s : Images) (t : Nat)
    (h : s.lastChecked ≠ some t) :
    (Images.resetPixelsIfDependingOn s (some t)).2
      = s.images.map (fun img => Event.makeStale img.id)
    ∧ (Images.resetPixelsIfDependingOn s (some t)).1.images
      = s.images.map (fun img => img.makeStaleIfDependingOn t)
    ∧ ∀ img ∈ s.images, img.drawLog.any (fun e => e.srcId = t) = true →
        ∃ img' ∈ (Images.resetPixelsIfDependingOn s (some t)).1.images,
          img'.id = img.id ∧ img'.stale = true := by
  refine ⟨by simp [Images.resetPixelsIfDependingOn, h],
          by simp [Images.resetPixelsIfDependingOn, h], ?_⟩
  intro img hm hl
  refine ⟨img.makeStaleIfDependingOn t, ?_, (makeStale_fields img t).1, ?_⟩
  · simp [Images.resetPixelsIfDependingOn, h]
    exact ⟨img, hm, rfl⟩
  · simp [Image.makeStaleIfDependingOn, hl]

def exC5 : Images :=
  { images := [{ id := 1, basePixels := 0, pixels := 0,
                 drawLog := [{ srcId := 0, payload := 0 }],
                 pixelCache := none, stale := false, volatile := false,
                 readFails := false, restoreFails := false }],
    lastChecked := none }

/-- Witness for C5 at a concrete registry state. -/
theorem resetPixelsIfDependingOn_scans_all_witness :
    (Images.resetPixelsIfDependingOn exC5 (some 0)).2
      = exC5.images.map (fun img => Event.makeStale img.id) :=
  (resetPixelsIfDependingOn_scans_all exC5 0 (by decide)).1

/-! ## The hint-clearing claim about `resolveStalePixels` -/

theorem resolveSeq_lastChecked (ids : List Nat) : ∀ s : Images,
    ((Images.resolveSeq s ids).2.1).lastChecked = s.lastChecked := by
  induction ids with
  | nil => intro s; rfl
  | cons i rest ih =>
    intro s
    unfold Images.resolveSeq
    cases hf : findImg s i with
    | none => exact ih s
    | some img =>
      cases hr : img.resolveStalePixels with
      | error e => simp [hr]
      | ok img' =>
        simp only [hr]
        exact ih (setImg s img')

/-- C10: `resolveStalePixels` clears the single-slot memoization hint
(`lastChecked` is `nil` in the state it returns, whether it succeeds or
fails), so the first `resetPixelsIfDependingOn` call with any non-nil
target that follows a resolve pass always performs the full per-image
dependency scan. -/
theorem resolveStalePixels_clears_hint (s : Images) :
    (Images.resolveStalePixels s).2.1.lastChecked = none
    ∧ ∀ t : Nat,
        (Images.resetPixelsIfDependingOn
            (Images.resolveStalePixels s).2.1 (some t)).2
          = (Images.resolveStalePixels s).2.1.images.map
              (fun img => Event.makeStale img.id) := by
  have h1 : (Images.resolveStalePixels s).2.1.lastChecked = none :=
    resolveSeq_lastChecked _ _
  refine ⟨h1, fun t => ?_⟩
  simp [Images.resetPixelsIfDependingOn, h1]

/-! ## The volatile-clearing claim -/

/-- C7: `clearVolatileImages` invokes `clearIfVolatile` on every live
image — the result is exactly the live set with `clearIfVolatile`
mapped over it and the trace lists each live image — and each live
image is visited exactly once.  The operation has no error component at
all: it cannot fail. -/
theorem clearVolatileImages_spec (s : Images)
    (hnd : (s.images.map Image.id).Nodup) :
    Images.clearVolatileImages s
      = ({ s with images := s.images.map Image.clearIfVolatile },
         s.images.map (fun img => Event.clearVol img.id))
    ∧ ∀ img ∈ s.images,
        (Images.clearVolatileImages s).2.count (Event.clearVol img.id) = 1 := by
  refine ⟨rfl, fun img hm => ?_⟩
  have hinj : Function.Injective Event.clearVol := fun a b h => by
    simpa using h
  show (s.images.map (fun img => Event.clearVol img.id)).count
      (Event.clearVol img.id) = 1
  have hcomp : s.images.map (fun img => Event.clearVol img.id)
      = (s.images.map Image.id).map Event.clearVol := by
    simp [List.map_map, Function.comp]
  rw [hcomp, List.count_map_of_injective _ _ hinj,
    List.count_eq_one_of_mem hnd (List.mem_map_of_mem _ hm)]

def imgC7a : Image :=
  { id := 1, basePixels := 5, pixels := 7,
    drawLog := [], pixelCache := none, stale := false, volatile := true,
    readFails := false, restoreFails := false }

def imgC7b : Image :=
  { id := 2, basePixels := 3, pixels := 3,
    drawLog := [], pixelCache := some 3, stale := false, volatile := false,
    readFails := false, restoreFails := false }

def exC7 : Images := { images := [imgC7a, imgC7b], lastChecked := none }

/-- Witness for C7 at a concrete registry state. -/
theorem clearVolatileImages_spec_witness :
    (Images.clearVolatileImages exC7).2.count (Event.clearVol 1) = 1 :=
  (clearVolatileImages_spec exC7 (by decide)).2 imgC7a (by decide)

/-! ## The package-level delegation claim -/

/-- C8: the package-level entry points `ResolveStalePixels`, `Restore`
and `ClearVolatileImages` behave identically to invoking the
corresponding method on the process-wide registry state (the singleton
`theImages`, threaded here explicitly as `s`). -/
theorem package_entry_points_delegate (s : Images) :
    ResolveStalePixels s = Images.resolveStalePixels s
    ∧ Restore s = Images.restore s
    ∧ ClearVolatileImages s = Images.clearVolatileImages s :=
  ⟨rfl, rfl, rfl⟩

/-! ## Lookup lemmas -/

theorem isLive_of_mem_map_id (s : Images) (i : Nat)
    (h : i ∈ s.images.map Image.id) : isLive s i = true := by
  simp only [isLive, List.any_eq_true]
  rcases List.mem_map.mp h with ⟨img, hm, rfl⟩
  exact ⟨img, hm, by simp⟩

theorem findImg_some_of_isLive (s : Images) (i : Nat)
    (h : isLive s i = true) : ∃ img, findImg s i = some img := by
  have hs := findImg_isSome s i
  rw [h] at hs
  exact Option.isSome_iff_exists.mp hs

theorem findImg_mem (s : Images) (i : Nat) (img : Image)
    (h : findImg s i = some img) : img ∈ s.images ∧ img.id = i :=
  ⟨List.mem_of_find?_eq_some h, by simpa using List.find?_some h⟩

theorem mem_setImg (s : Images) (img j : Image)
    (h : j ∈ (setImg s img).images) : j = img ∨ j ∈ s.images := by
  rcases List.mem_map.mp h with ⟨y, hy, rfl⟩
  by_cases hc : y.id = img.id
  · exact Or.inl (by simp [hc])
  · exact Or.inr (by simp [hc]; exact hy)

/-! ## Behaviour of the resolve loop -/

theorem resolveSeq_cons_none (s : Images) (i : Nat) (rest : List Nat)
    (hf : findImg s i = none) :
    Images.resolveSeq s (i :: rest) = Images.resolveSeq s rest := by
  conv_lhs => unfold Images.resolveSeq
  rw [hf]

theorem resolveSeq_cons_error (s : Images) (i : Nat) (rest : List Nat)
    (img : Image) (e : Err) (hf : findImg s i = some img)
    (hr : img.resolveStalePixels = Except.error e) :
    Images.resolveSeq s (i :: rest) = (some e, s, [Event.resolveImg i]) := by
  unfold Images.resolveSeq
  simp only [hf, hr]

theorem resolveSeq_cons_ok (s : Images) (i : Nat) (rest : List Nat)
    (img img' : Image) (hf : findImg s i = some img)
    (hr : img.resolveStalePixels = Except.ok img') :
    Images.resolveSeq s (i :: rest)
      = ((Images.resolveSeq (setImg s img') rest).1,
         (Images.resolveSeq (setImg s img') rest).2.1,
         Event.resolveImg i :: (Images.resolveSeq (setImg s img') rest).2.2) := by
  conv_lhs => unfold Images.resolveSeq
  simp only [hf, hr]

theorem resolve_ok_of_not_readFails (img : Image) (h : img.readFails = false) :
    ∃ img', img.resolveStalePixels = Except.ok img'
      ∧ img'.readFails = false ∧ img'.id = img.id := by
  cases hc : img.pixelCache with
  | none =>
    refine ⟨{ img with pixelCache := some img.pixels, stale := false },
      ?_, h, rfl⟩
    simp [Image.resolveStalePixels, hc, h]
  | some v =>
    by_cases hs : img.stale
    · refine ⟨{ img with pixelCache := some img.pixels, stale := false },
        ?_, h, rfl⟩
      simp [Image.resolveStalePixels, hc, h, hs]
    · exact ⟨img, by simp [Image.resolveStalePixels, hc, hs], h, rfl⟩

theorem resolveSeq_ok_of_no_readFails (ids : List Nat) : ∀ s : Images,
    (∀ img ∈ s.images, img.readFails = false) →
    (Images.resolveSeq s ids).1 = none := by
  induction ids with
  | nil => intro s _; rfl
  | cons i rest ih =>
    intro s h
    cases hf : findImg s i with
    | none => rw [resolveSeq_cons_none s i rest hf]; exact ih s h
    | some img =>
      have hm := (findImg_mem s i img hf).1
      obtain ⟨img', hok, hrf, _⟩ := resolve_ok_of_not_readFails img (h img hm)
      rw [resolveSeq_cons_ok s i rest img img' hf hok]
      apply ih
      intro j hj
      rcases mem_setImg s img' j hj with rfl | hj'
      · exact hrf
      · exact h j hj'

theorem resolveSeq_none_trace (ids : List Nat) : ∀ s : Images,
    (∀ i ∈ ids, isLive s i = true) →
    (Images.resolveSeq s ids).1 = none →
    (Images.resolveSeq s ids).2.2 = ids.map Event.resolveImg := by
  induction ids with
  | nil => intro s _ _; rfl
  | cons i rest ih =>
    intro s h hn
    obtain ⟨img, hf⟩ := findImg_some_of_isLive s i (h i (by simp))
    cases hr : img.resolveStalePixels with
    | error e =>
      rw [resolveSeq_cons_error s i rest img e hf hr] at hn
      simp at hn
    | ok img' =>
      rw [resolveSeq_cons_ok s i rest img img' hf hr] at hn ⊢
      simp only [List.map_cons, List.cons.injEq, true_and]
      refine ih (setImg s img') ?_ hn
      intro j hj
      rw [isLive_setImg]
      exact h j (by simp [hj])

theorem resolveSeq_first_error (ids : List Nat) : ∀ s : Images,
    ∀ e s2 tr, (∀ i ∈ ids, isLive s i = true) →
    Images.resolveSeq s ids = (some e, s2, tr) →
    ∃ k, ∃ hk : k < ids.length,
      tr = (ids.take (k + 1)).map Event.resolveImg
      ∧ Images.resolveSeq s (ids.take k)
          = (none, s2, (ids.take k).map Event.resolveImg)
      ∧ ∃ img, findImg s2 (ids.get ⟨k, hk⟩) = some img
          ∧ img.resolveStalePixels = Except.error e := by
  induction ids with
  | nil => intro s e s2 tr _ heq; simp [Images.resolveSeq] at heq
  | cons i rest ih =>
    intro s e s2 tr h heq
    obtain ⟨img, hf⟩ := findImg_some_of_isLive s i (h i (by simp))
    cases hr : img.resolveStalePixels with
    | error e0 =>
      rw [resolveSeq_cons_error s i rest img e0 hf hr] at heq
      simp only [Prod.mk.injEq, Option.some.injEq] at heq
      obtain ⟨rfl, rfl, rfl⟩ := heq
      exact ⟨0, by simp, by simp, rfl, img, hf, hr⟩
    | ok img' =>
      rw [resolveSeq_cons_ok s i rest img img' hf hr] at heq
      simp only [Prod.mk.injEq] at heq
      obtain ⟨h1, h2, h3⟩ := heq
      have hrec : Images.resolveSeq (setImg s img') rest
          = (some e, s2, (Images.resolveSeq (setImg s img') rest).2.2) := by
        rw [← h1, ← h2]
      have hlive : ∀ j ∈ rest, isLive (setImg s img') j = true := by
        intro j hj
        rw [isLive_setImg]
        exact h j (by simp [hj])
      obtain ⟨k, hk, htr, hpre, imgf, hff, hfe⟩ :=
        ih (setImg s img') e s2 _ hlive hrec
      refine ⟨k + 1, by simpa using Nat.succ_lt_succ hk, ?_, ?_, imgf, hff, hfe⟩
      · rw [← h3, htr]
        simp
      · show Images.resolveSeq s (i :: rest.take k)
            = (none, s2, (i :: rest.take k).map Event.resolveImg)
        rw [resolveSeq_cons_ok s i (rest.take k) img img' hf hr,
          hpre]
        simp

/-- C4: `resolveStalePixels` resolves every live image when all
read-backs succeed (no error is returned and the trace visits every
live image); when some image's resolution fails, the first failing
image's error is returned immediately: the trace stops at that image,
the returned state is exactly the one reached by the resolutions before
it (no partial-resolution of the remainder is attempted), and the error
is the failing image's own read-back error. -/
theorem resolveStalePixels_spec (s : Images) :
    ((∀ img ∈ s.images, img.readFails = false) →
        (Images.resolveStalePixels s).1 = none)
    ∧ ((Images.resolveStalePixels s).1 = none →
        (Images.resolveStalePixels s).2.2
          = s.images.map (fun img => Event.resolveImg img.id))
    ∧ ∀ e s2 tr, Images.resolveStalePixels s = (some e, s2, tr) →
        ∃ k, ∃ hk : k < (s.images.map Image.id).length,
          tr = ((s.images.map Image.id).take (k + 1)).map Event.resolveImg
          ∧ Images.resolveSeq { s with lastChecked := none }
                ((s.images.map Image.id).take k)
              = (none, s2, ((s.images.map Image.id).take k).map Event.resolveImg)
          ∧ ∃ img, findImg s2 ((s.images.map Image.id).get ⟨k, hk⟩) = some img
              ∧ img.resolveStalePixels = Except.error e := by
  have hids : ∀ i ∈ s.images.map Image.id,
      isLive { s with lastChecked := none } i = true := by
    intro i hi
    exact isLive_of_mem_map_id _ i hi
  refine ⟨?_, ?_, ?_⟩
  · intro h
    exact resolveSeq_ok_of_no_readFails _ _ h
  · intro hn
    have htr := resolveSeq_none_trace (s.images.map Image.id)
      { s with lastChecked := none } hids hn
    simpa [List.map_map, Function.comp] using htr
  · intro e s2 tr heq
    exact resolveSeq_first_error _ _ e s2 tr hids heq

def exC4 : Images :=
  { images := [{ id := 1, basePixels := 2, pixels := 4,
                 drawLog := [], pixelCache := some 9, stale := true,
                 volatile := false, readFails := false, restoreFails := false }],
    lastChecked := some 1 }

/-- Witness for C4 at a concrete registry state. -/
theorem resolveStalePixels_spec_witness :
    (Images.resolveStalePixels exC4).1 = none :=
  (resolveStalePixels_spec exC4).1 (by decide)

/-! ## Behaviour of the restore loop -/

theorem restoreSeq_cons_none (s : Images) (i : Nat) (rest : List Nat)
    (hf : findImg s i = none) :
    Images.restoreSeq s (i :: rest) = Images.restoreSeq s rest := by
  conv_lhs => unfold Images.restoreSeq
  rw [hf]

theorem restoreSeq_cons_error (s : Images) (i : Nat) (rest : List Nat)
    (img : Image) (e : Err) (hf : findImg s i = some img)
    (hr : Image.restore s img = Except.error e) :
    Images.restoreSeq s (i :: rest) = (some e, s, [Event.restoreImg i]) := by
  unfold Images.restoreSeq
  simp only [hf, hr]

theorem restoreSeq_cons_ok (s : Images) (i : Nat) (rest : List Nat)
    (img img' : Image) (hf : findImg s i = some img)
    (hr : Image.restore s img = Except.ok img') :
    Images.restoreSeq s (i :: rest)
      = ((Images.restoreSeq (setImg s img') rest).1,
         (Images.restoreSeq (setImg s img') rest).2.1,
         Event.restoreImg i :: (Images.restoreSeq (setImg s img') rest).2.2) := by
  conv_lhs => unfold Images.restoreSeq
  simp only [hf, hr]

theorem restoreSeq_none_trace (ids : List Nat) : ∀ s : Images,
    (∀ i ∈ ids, isLive s i = true) →
    (Images.restoreSeq s ids).1 = none →
    (Images.restoreSeq s ids).2.2 = ids.map Event.restoreImg := by
  induction ids with
  | nil => intro s _ _; rfl
  | cons i rest ih =>
    intro s h hn
    obtain ⟨img, hf⟩ := findImg_some_of_isLive s i (h i (by simp))
    cases hr : Image.restore s img with
    | error e =>
      rw [restoreSeq_cons_error s i rest img e hf hr] at hn
      simp at hn
    | ok img' =>
      rw [restoreSeq_cons_ok s i rest img img' hf hr] at hn ⊢
      simp only [List.map_cons, List.cons.injEq, true_and]
      refine ih (setImg s img') ?_ hn
      intro j hj
      rw [isLive_setImg]
      exact h j (by simp [hj])

theorem restoreSeq_first_error (ids : List Nat) : ∀ s : Images,
    ∀ e s2 tr, (∀ i ∈ ids, isLive s i = true) →
    Images.restoreSeq s ids = (some e, s2, tr) →
    ∃ k, ∃ hk : k < ids.length,
      tr = (ids.take (k + 1)).map Event.restoreImg
      ∧ Images.restoreSeq s (ids.take k)
          = (none, s2, (ids.take k).map Event.restoreImg)
      ∧ ∃ img, findImg s2 (ids.get ⟨k, hk⟩) = some img
          ∧ Image.restore s2 img = Except.error e := by
  induction ids with
  | nil => intro s e s2 tr _ heq; simp [Images.restoreSeq] at heq
  | cons i rest ih =>
    intro s e s2 tr h heq
    obtain ⟨img, hf⟩ := findImg_some_of_isLive s i (h i (by simp))
    cases hr : Image.restore s img with
    | error e0 =>
      rw [restoreSeq_cons_error s i rest img e0 hf hr] at heq
      simp only [Prod.mk.injEq, Option.some.injEq] at heq
      obtain ⟨rfl, rfl, rfl⟩ := heq
      exact ⟨0, by simp, by simp, rfl, img, hf, hr⟩
    | ok img' =>
      rw [restoreSeq_cons_ok s i rest img img' hf hr] at heq
      simp only [Prod.mk.injEq] at heq
      obtain ⟨h1, h2, h3⟩ := heq
      have hrec : Images.restoreSeq (setImg s img') rest
          = (some e, s2, (Images.restoreSeq (setImg s img') rest).2.2) := by
        rw [← h1, ← h2]
      have hlive : ∀ j ∈ rest, isLive (setImg s img') j = true := by
        intro j hj
        rw [isLive_setImg]
        exact h j (by simp [hj])
      obtain ⟨k, hk, htr, hpre, imgf, hff, hfe⟩ :=
        ih (setImg s img') e s2 _ hlive hrec
      refine ⟨k + 1, by simpa using Nat.succ_lt_succ hk, ?_, ?_, imgf, hff, hfe⟩
      · rw [← h3, htr]
        simp
      · show Images.restoreSeq s (i :: rest.take k)
            = (none, s2, (i :: rest.take k).map Event.restoreImg)
        rw [restoreSeq_cons_ok s i (rest.take k) img img' hf hr,
          hpre]
        simp

theorem isLive_of_mem_restoreOrder (s : Images) (i : Nat)
    (h : i ∈ Images.restoreOrder s) : isLive s i = true := by
  unfold Images.restoreOrder at h
  rcases List.mem_append.mp h with h | h <;>
  · rcases List.mem_map.mp h with ⟨img, hm, rfl⟩
    exact isLive_of_mem_map_id s _
      (List.mem_map_of_mem _ (List.mem_filter.mp hm).1)

/-- C3: if a per-image restore fails during the registry's restore
pass, the pass returns that image's error at once.  The trace shows
that exactly the images up to and including the failing one (position
`k` in the processing order) were attempted, the returned state is
precisely the state produced by the `k` successful restores before the
failure — so those images remain restored and nothing is rolled back —
and the failing image's restore against that state yields the returned
error. -/
theorem restore_first_error (s : Images) :
    ∀ e s2 tr, Images.restore s = (some e, s2, tr) →
      ∃ k, ∃ hk : k < (Images.restoreOrder s).length,
        tr = ((Images.restoreOrder s).take (k + 1)).map Event.restoreImg
        ∧ Images.restoreSeq s ((Images.restoreOrder s).take k)
            = (none, s2, ((Images.restoreOrder s).take k).map Event.restoreImg)
        ∧ ∃ img, findImg s2 ((Images.restoreOrder s).get ⟨k, hk⟩) = some img
            ∧ Image.restore s2 img = Except.error e := by
  intro e s2 tr heq
  exact restoreSeq_first_error _ s e s2 tr
    (fun i hi => isLive_of_mem_restoreOrder s i hi) heq

def exC3 : Images :=
  { images := [{ id := 1, basePixels := 2, pixels := 2,
                 drawLog := [], pixelCache := none, stale := false,
                 volatile := false, readFails := false, restoreFails := true }],
    lastChecked := none }

/-- Witness for C3 at a concrete registry state whose single image has
a failing GPU binding. -/
theorem restore_first_error_witness :
    ∃ k, ∃ hk : k < (Images.restoreOrder exC3).length,
      (Images.restore exC3).2.2
        = ((Images.restoreOrder exC3).take (k + 1)).map Event.restoreImg
      ∧ Images.restoreSeq exC3 ((Images.restoreOrder exC3).take k)
          = (none, (Images.restore exC3).2.1,
             ((Images.restoreOrder exC3).take k).map Event.restoreImg)
      ∧ ∃ img, findImg (Images.restore exC3).2.1
            ((Images.restoreOrder exC3).get ⟨k, hk⟩) = some img
          ∧ Image.restore (Images.restore exC3).2.1 img
              = Except.error (Err.restoreError 1) :=
  restore_first_error exC3 (Err.restoreError 1)
    (Images.restore exC3).2.1 (Images.restore exC3).2.2 (by decide)

/-- C1: on a successful restore pass the live set is partitioned into
the two disjoint groups computed by `hasDependency` — images whose
drawLog references no other still-live image versus images referencing
at least one — and the trace of per-image restores is exactly the
independent group followed by the dependent group (so every
independent image is restored before any dependent image), with every
live image restored exactly once. -/
theorem restore_partition (s : Images) (hnd : (s.images.map Image.id).Nodup) :
    ∀ s2 tr, Images.restore s = (none, s2, tr) →
      tr = ((s.images.filter (fun img => !Image.hasDependency s img)).map
              (fun img => Event.restoreImg img.id))
            ++ ((s.images.filter (fun img => Image.hasDependency s img)).map
              (fun img => Event.restoreImg img.id))
      ∧ (∀ img ∈ s.images,
            (img ∈ s.images.filter (fun j => !Image.hasDependency s j)
              ↔ Image.hasDependency s img = false)
          ∧ (img ∈ s.images.filter (fun j => Image.hasDependency s j)
              ↔ Image.hasDependency s img = true))
      ∧ (∀ img ∈ s.images, tr.count (Event.restoreImg img.id) = 1) := by
  intro s2 tr heq
  have h1 : (Images.restore s).1 = none := by rw [heq]
  have htr0 := restoreSeq_none_trace (Images.restoreOrder s) s
    (fun i hi => isLive_of_mem_restoreOrder s i hi) h1
  have htr0b : (Images.restore s).2.2
      = (Images.restoreOrder s).map Event.restoreImg := htr0
  rw [heq] at htr0b
  have htr : tr = (Images.restoreOrder s).map Event.restoreImg := htr0b
  have hinj : Function.Injective Event.restoreImg := fun a b hab => by
    simpa using hab
  refine ⟨?_, ?_, ?_⟩
  · rw [htr]
    simp [Images.restoreOrder, List.map_append, List.map_map,
      Function.comp_def]
  · intro img hm
    constructor
    · simp [List.mem_filter, hm]
    · simp [List.mem_filter, hm]
  · intro img hm
    rw [htr]
    have hcnt : ((Images.restoreOrder s).map Event.restoreImg).count
        (Event.restoreImg img.id) = (Images.restoreOrder s).count img.id :=
      List.count_map_of_injective _ _ hinj _
    rw [hcnt]
    unfold Images.restoreOrder
    rw [List.count_append]
    have hsubA : ((s.images.filter
        (fun j => !Image.hasDependency s j)).map Image.id).Sublist
          (s.images.map Image.id) :=
      List.Sublist.map _ (List.filter_sublist _)
    have hsubB : ((s.images.filter
        (fun j => Image.hasDependency s j)).map Image.id).Sublist
          (s.images.map Image.id) :=
      List.Sublist.map _ (List.filter_sublist _)
    cases hdep : Image.hasDependency s img with
    | true =>
      have hmemB : img.id ∈ (s.images.filter
          (fun j => Image.hasDependency s j)).map Image.id :=
        List.mem_map_of_mem _ (List.mem_filter.mpr ⟨hm, hdep⟩)
      have hnotA : img.id ∉ (s.images.filter
          (fun j => !Image.hasDependency s j)).map Image.id := by
        intro hin
        rcases List.mem_map.mp hin with ⟨y, hy, hyid⟩
        have hy2 := List.mem_filter.mp hy
        have hye : y = img := List.inj_on_of_nodup_map hnd hy2.1 hm hyid
        rw [hye, hdep] at hy2
        simp at hy2
      rw [List.count_eq_zero.mpr hnotA,
        List.count_eq_one_of_mem (List.Nodup.sublist hsubB hnd) hmemB]
    | false =>
      have hmemA : img.id ∈ (s.images.filter
          (fun j => !Image.hasDependency s j)).map Image.id :=
        List.mem_map_of_mem _ (List.mem_filter.mpr ⟨hm, by rw [hdep]; rfl⟩)
      have hnotB : img.id ∉ (s.images.filter
          (fun j => Image.hasDependency s j)).map Image.id := by
        intro hin
        rcases List.mem_map.mp hin with ⟨y, hy, hyid⟩
        have hy2 := List.mem_filter.mp hy
        have hye : y = img := List.inj_on_of_nodup_map hnd hy2.1 hm hyid
        rw [hye, hdep] at hy2
        simp at hy2
      rw [List.count_eq_zero.mpr hnotB,
        List.count_eq_one_of_mem (List.Nodup.sublist hsubA hnd) hmemA]

def imgC1a : Image :=
  { id := 1, basePixels := 3, pixels := 3,
    drawLog := [], pixelCache := none, stale := false,
    volatile := false, readFails := false, restoreFails := false }

def imgC1b : Image :=
  { id := 2, basePixels := 0, pixels := 95,
    drawLog := [{ srcId := 1, payload := 4 }], pixelCache := none,
    stale := false, volatile := false, readFails := false,
    restoreFails := false }

def exC1 : Images := { images := [imgC1b, imgC1a], lastChecked := none }

/-- Witness for C1 at a concrete registry state with one dependent and
one independent image. -/
theorem restore_partition_witness :
    (Images.restore exC1).2.2.count (Event.restoreImg 2) = 1 :=
  (restore_partition exC1 (by decide)
    (Images.restore exC1).2.1 (Images.restore exC1).2.2
    (by decide)).2.2 imgC1b (by decide)

/-! ## Round-trip correctness of restore (draw phase machinery) -/

/-- A draw command: destination identity, source identity, opaque
payload. -/
def applyDraws (s : Images) (ds : List (Nat × Nat × Nat)) : Images :=
  ds.foldl (fun st p => draw st p.1 p.2.1 p.2.2) s

/-- The state of an image right after its per-image restore succeeded
with unchanged pixel content: cache discarded, staleness cleared. -/
def cleanImg (img : Image) : Image :=
  { img with pixelCache := none, stale := false }

/-- Mark the images whose identity is in `R` as freshly restored. -/
def resMark (R : List Nat) (img : Image) : Image :=
  if img.id ∈ R then cleanImg img else img

@[simp] theorem cleanImg_id (img : Image) : (cleanImg img).id = img.id := rfl

@[simp] theorem cleanImg_pixels (img : Image) :
    (cleanImg img).pixels = img.pixels := rfl

@[simp] theorem cleanImg_basePixels (img : Image) :
    (cleanImg img).basePixels = img.basePixels := rfl

@[simp] theorem cleanImg_drawLog (img : Image) :
    (cleanImg img).drawLog = img.drawLog := rfl

@[simp] theorem cleanImg_volatile (img : Image) :
    (cleanImg img).volatile = img.volatile := rfl

@[simp] theorem cleanImg_restoreFails (img : Image) :
    (cleanImg img).restoreFails = img.restoreFails := rfl

@[simp] theorem cleanImg_readFails (img : Image) :
    (cleanImg img).readFails = img.readFails := rfl

@[simp] theorem resMark_id (R : List Nat) (img : Image) :
    (resMark R img).id = img.id := by
  unfold resMark; split <;> rfl

@[simp] theorem resMark_pixels (R : List Nat) (img : Image) :
    (resMark R img).pixels = img.pixels := by
  unfold resMark; split <;> rfl

@[simp] theorem resMark_basePixels (R : List Nat) (img : Image) :
    (resMark R img).basePixels = img.basePixels := by
  unfold resMark; split <;> rfl

@[simp] theorem resMark_drawLog (R : List Nat) (img : Image) :
    (resMark R img).drawLog = img.drawLog := by
  unfold resMark; split <;> rfl

@[simp] theorem resMark_volatile (R : List Nat) (img : Image) :
    (resMark R img).volatile = img.volatile := by
  unfold resMark; split <;> rfl

@[simp] theorem resMark_restoreFails (R : List Nat) (img : Image) :
    (resMark R img).restoreFails = img.restoreFails := by
  unfold resMark; split <;> rfl

@[simp] theorem resMark_readFails (R : List Nat) (img : Image) :
    (resMark R img).readFails = img.readFails := by
  unfold resMark; split <;> rfl

theorem resMark_congr (R1 R2 : List Nat) (h : ∀ a, a ∈ R1 ↔ a ∈ R2)
    (img : Image) : resMark R1 img = resMark R2 img := by
  unfold resMark
  by_cases hm : img.id ∈ R1
  · rw [if_pos hm, if_pos ((h img.id).mp hm)]
  · rw [if_neg hm, if_neg (fun hm2 => hm ((h img.id).mpr hm2))]

theorem isLive_eq_of_map_id_eq (s s0 : Images)
    (h : s.images.map Image.id = s0.images.map Image.id) (i : Nat) :
    isLive s i = isLive s0 i := by
  rw [Bool.eq_iff_iff]
  simp only [isLive, List.any_eq_true, decide_eq_true_eq]
  constructor
  · rintro ⟨x, hx, hid⟩
    have hmm : x.id ∈ s0.images.map Image.id := by
      rw [← h]; exact List.mem_map_of_mem _ hx
    rcases List.mem_map.mp hmm with ⟨y, hy, hyid⟩
    exact ⟨y, hy, by rw [hyid]; exact hid⟩
  · rintro ⟨x, hx, hid⟩
    have hmm : x.id ∈ s.images.map Image.id := by
      rw [h]; exact List.mem_map_of_mem _ hx
    rcases List.mem_map.mp hmm with ⟨y, hy, hyid⟩
    exact ⟨y, hy, by rw [hyid]; exact hid⟩

theorem findImg_map_of_id_preserving (g : Image → Image)
    (hg : ∀ img, (g img).id = img.id) (l : List Image) (lc : Option Nat)
    (i : Nat) :
    findImg { images := l.map g, lastChecked := lc } i
      = (l.find? (fun img => img.id = i)).map g :=
  find?_map_of_id_preserving g hg l i

theorem findImg_pixels_of_pixel_preserving (g : Image → Image)
    (hgid : ∀ img, (g img).id = img.id)
    (hgp : ∀ img, (g img).pixels = img.pixels) (s : Images)
    (lc : Option Nat) (i : Nat) :
    (findImg { images := s.images.map g, lastChecked := lc } i).map
        Image.pixels
      = (findImg s i).map Image.pixels := by
  rw [findImg_map_of_id_preserving g hgid]
  have hfi : s.images.find? (fun img => img.id = i) = findImg s i := rfl
  rw [hfi]
  cases findImg s i with
  | none => rfl
  | some src => simp [hgp]

theorem replay_cons_some (s : Images) (b : Nat) (e : DrawLogEntry)
    (rest : List DrawLogEntry) (src : Image)
    (hf : findImg s e.srcId = some src) :
    Image.replay s b (e :: rest)
      = Image.replay s (combine b src.pixels e.payload) rest := by
  conv_lhs => unfold Image.replay
  rw [hf]

theorem replay_cons_none (s : Images) (b : Nat) (e : DrawLogEntry)
    (rest : List DrawLogEntry) (hf : findImg s e.srcId = none) :
    Image.replay s b (e :: rest) = none := by
  conv_lhs => unfold Image.replay
  rw [hf]

theorem replay_congr (s1 s2 : Images) (log : List DrawLogEntry) :
    ∀ b, (∀ e ∈ log, (findImg s1 e.srcId).map Image.pixels
        = (findImg s2 e.srcId).map Image.pixels) →
    Image.replay s1 b log = Image.replay s2 b log := by
  induction log with
  | nil => intro b _; rfl
  | cons e rest ih =>
    intro b h
    have he := h e (by simp)
    cases h1 : findImg s1 e.srcId with
    | none =>
      rw [h1] at he
      cases h2 : findImg s2 e.srcId with
      | none => rw [replay_cons_none s1 b e rest h1,
          replay_cons_none s2 b e rest h2]
      | some src2 => rw [h2] at he; simp at he
    | some src1 =>
      rw [h1] at he
      cases h2 : findImg s2 e.srcId with
      | none => rw [h2] at he; simp at he
      | some src2 =>
        rw [h2] at he
        simp at he
        rw [replay_cons_some s1 b e rest src1 h1,
          replay_cons_some s2 b e rest src2 h2, he]
        exact ih _ (fun e2 he2 => h e2 (by simp [he2]))

theorem replay_append (s : Images) (l1 l2 : List DrawLogEntry) :
    ∀ b, Image.replay s b (l1 ++ l2)
      = (Image.replay s b l1).bind (fun p => Image.replay s p l2) := by
  induction l1 with
  | nil => intro b; rfl
  | cons e rest ih =>
    intro b
    cases hf : findImg s e.srcId with
    | none =>
      rw [show ((e :: rest) ++ l2) = e :: (rest ++ l2) from rfl,
        replay_cons_none s b e (rest ++ l2) hf,
        replay_cons_none s b e rest hf]
      rfl
    | some src =>
      rw [show ((e :: rest) ++ l2) = e :: (rest ++ l2) from rfl,
        replay_cons_some s b e (rest ++ l2) src hf,
        replay_cons_some s b e rest src hf]
      exact ih (combine b src.pixels e.payload)

theorem readPixels_of_cache_none (img : Image) (hc : img.pixelCache = none)
    (hr : img.readFails = false) :
    Image.readPixels img = Except.ok img.pixels := by
  simp [Image.readPixels, Image.resolveStalePixels, hc, hr]

theorem findImg_setImg_ne (s : Images) (img : Image) (i : Nat)
    (hne : i ≠ img.id) : findImg (setImg s img) i = findImg s i := by
  have h1 : findImg (setImg s img) i
      = (s.images.find? (fun j => j.id = i)).map
          (fun j => if j.id = img.id then img else j) :=
    find?_map_of_id_preserving _ (setImg_id_preserving img) s.images i
  rw [h1]
  cases hf : s.images.find? (fun j => j.id = i) with
  | none => simp [findImg, hf]
  | some j0 =>
    have hj0 : j0.id = i := by simpa using List.find?_some hf
    have : ¬ (j0.id = img.id) := by rw [hj0]; exact hne
    simp [findImg, hf, this]

theorem isLive_of_findImg_some (s : Images) (i : Nat) (img : Image)
    (h : findImg s i = some img) : isLive s i = true := by
  rw [← findImg_isSome, h]
  rfl

/-- The invariant maintained by the draw phase of the round-trip
scenario: identities are stable, every image is healthy (non-volatile,
reliable GPU binding, no CPU cache), sources (identities outside the
target set `T`) keep empty logs, every log entry points outside `T` and
at a live image other than its owner, and — the restorability fact —
replaying any image's log against the current live set reproduces its
current pixels. -/
def DrawInv (s0 : Images) (T : List Nat) (s : Images) : Prop :=
  s.images.map Image.id = s0.images.map Image.id
  ∧ ∀ img ∈ s.images,
      img.volatile = false ∧ img.restoreFails = false
      ∧ img.readFails = false ∧ img.pixelCache = none
      ∧ (img.id ∉ T → img.drawLog = [])
      ∧ (∀ e ∈ img.drawLog, e.srcId ≠ img.id ∧ e.srcId ∉ T
          ∧ isLive s e.srcId = true)
      ∧ Image.replay s img.basePixels img.drawLog = some img.pixels

theorem DrawInv_init (s0 : Images) (T : List Nat)
    (h : ∀ img ∈ s0.images, img.volatile = false ∧ img.restoreFails = false
      ∧ img.readFails = false ∧ img.pixelCache = none
      ∧ img.drawLog = [] ∧ img.pixels = img.basePixels) :
    DrawInv s0 T s0 := by
  refine ⟨rfl, fun img hm => ?_⟩
  obtain ⟨h1, h2, h3, h4, h5, h6⟩ := h img hm
  refine ⟨h1, h2, h3, h4, fun _ => h5, ?_, ?_⟩
  · rw [h5]
    intro e he
    cases he
  · rw [h5, h6]
    rfl

theorem DrawInv_map_stale_only (s0 : Images) (T : List Nat) (s : Images)
    (t : Nat) (lc : Option Nat) (hinv : DrawInv s0 T s) :
    DrawInv s0 T
      { images := s.images.map (fun img => img.makeStaleIfDependingOn t),
        lastChecked := lc } := by
  have hgid : ∀ img : Image, (img.makeStaleIfDependingOn t).id = img.id :=
    fun img => (makeStale_fields img t).1
  have hgpx : ∀ img : Image,
      (img.makeStaleIfDependingOn t).pixels = img.pixels :=
    fun img => (makeStale_fields img t).2.2.1
  have hid : (s.images.map (fun img => img.makeStaleIfDependingOn t)).map
      Image.id = s0.images.map Image.id := by
    rw [map_id_of_id_preserving _ hgid]
    exact hinv.1
  refine ⟨hid, fun j' hj' => ?_⟩
  rcases List.mem_map.mp hj' with ⟨j, hj, rfl⟩
  obtain ⟨hv, hrf, hrd, hcache, hemp, hentries, hreplay⟩ := hinv.2 j hj
  obtain ⟨f1, f2, f3, f4, f5, f6, f7, f8⟩ := makeStale_fields j t
  refine ⟨by rw [f6]; exact hv, by rw [f8]; exact hrf,
    by rw [f7]; exact hrd, by rw [f5]; exact hcache,
    by rw [f1, f4]; exact hemp, ?_, ?_⟩
  · rw [f4, f1]
    intro e he
    obtain ⟨g1, g2, g3⟩ := hentries e he
    refine ⟨g1, g2, ?_⟩
    rw [isLive_eq_of_map_id_eq _ s]
    · exact g3
    · rw [map_id_of_id_preserving _ hgid]
  · rw [f2, f3, f4]
    rw [replay_congr _ s j.drawLog j.basePixels
      (fun e _ => findImg_pixels_of_pixel_preserving _ hgid hgpx s lc e.srcId)]
    exact hreplay

theorem DrawInv_draw (s0 : Images) (T : List Nat) (s : Images) (d sv q : Nat)
    (hinv : DrawInv s0 T s) (hdT : d ∈ T) (hsvT : sv ∉ T) (hne : d ≠ sv) :
    DrawInv s0 T (draw s d sv q) := by
  cases hfs : findImg s sv with
  | none =>
    have hdraw : draw s d sv q = s := by
      unfold draw
      rw [hfs]
    rw [hdraw]
    exact hinv
  | some src =>
    cases hfd : findImg s d with
    | none =>
      have hdraw : draw s d sv q = s := by
        unfold draw
        rw [hfs, hfd]
      rw [hdraw]
      exact hinv
    | some dest =>
      have hdest_id : dest.id = d := (findImg_mem s d dest hfd).2
      have hdest_mem : dest ∈ s.images := (findImg_mem s d dest hfd).1
      have hsrc_id : src.id = sv := (findImg_mem s sv src hfs).2
      have hdraw : draw s d sv q
          = (Images.resetPixelsIfDependingOn
              (setImg s { dest with
                pixels := combine dest.pixels src.pixels q,
                drawLog := dest.drawLog ++ [{ srcId := sv, payload := q }],
                pixelCache := none,
                stale := false }) (some d)).1 := by
        unfold draw
        rw [hfs, hfd]
      have hinv1 : DrawInv s0 T (setImg s { dest with
          pixels := combine dest.pixels src.pixels q,
          drawLog := dest.drawLog ++ [{ srcId := sv, payload := q }],
          pixelCache := none,
          stale := false }) := by
        constructor
        · rw [setImg_map_id]
          exact hinv.1
        · intro j' hj'
          have hj2 : j' ∈ s.images.map (fun j =>
              if j.id = dest.id then { dest with
                pixels := combine dest.pixels src.pixels q,
                drawLog := dest.drawLog ++ [{ srcId := sv, payload := q }],
                pixelCache := none,
                stale := false } else j) := hj'
          rcases List.mem_map.mp hj2 with ⟨j, hj, rfl⟩
          have hidmap : (setImg s { dest with
              pixels := combine dest.pixels src.pixels q,
              drawLog := dest.drawLog ++ [{ srcId := sv, payload := q }],
              pixelCache := none,
              stale := false }).images.map Image.id
                = s.images.map Image.id := setImg_map_id s _
          obtain ⟨hvD, hrfD, hrdD, hcD, hempD, hentD, hrepD⟩ :=
            hinv.2 dest hdest_mem
          by_cases hcase : j.id = dest.id
          · rw [if_pos hcase]
            refine ⟨hvD, hrfD, hrdD, rfl, ?_, ?_, ?_⟩
            · intro hmem
              exact absurd hdT (by rw [hdest_id] at hmem; exact hmem)
            · intro e he
              rcases List.mem_append.mp he with hold | hnew
              · obtain ⟨g1, g2, g3⟩ := hentD e hold
                refine ⟨g1, g2, ?_⟩
                rw [isLive_eq_of_map_id_eq _ s _ _]
                · exact g3
                · exact hidmap
              · have he2 : e = { srcId := sv, payload := q } := by
                  simpa using hnew
                subst he2
                refine ⟨?_, hsvT, ?_⟩
                · show sv ≠ dest.id
                  rw [hdest_id]
                  exact fun hsd => hne hsd.symm
                · rw [isLive_eq_of_map_id_eq _ s _ _]
                  · exact isLive_of_findImg_some s sv src hfs
                  · exact hidmap
            · show Image.replay _ dest.basePixels
                  (dest.drawLog ++ [{ srcId := sv, payload := q }])
                = some (combine dest.pixels src.pixels q)
              rw [replay_append]
              have hrepl_old : Image.replay (setImg s { dest with
                  pixels := combine dest.pixels src.pixels q,
                  drawLog := dest.drawLog ++ [{ srcId := sv, payload := q }],
                  pixelCache := none,
                  stale := false }) dest.basePixels dest.drawLog
                    = Image.replay s dest.basePixels dest.drawLog := by
                apply replay_congr
                intro e he
                obtain ⟨g1, g2, g3⟩ := hentD e he
                rw [findImg_setImg_ne]
                show e.srcId ≠ dest.id
                rw [hdest_id]
                exact fun hsd => g2 (hsd ▸ hdT)
              rw [hrepl_old, hrepD]
              have hfs1 : findImg (setImg s { dest with
                  pixels := combine dest.pixels src.pixels q,
                  drawLog := dest.drawLog ++ [{ srcId := sv, payload := q }],
                  pixelCache := none,
                  stale := false }) sv = some src := by
                rw [findImg_setImg_ne]
                · exact hfs
                · show sv ≠ dest.id
                  rw [hdest_id]
                  exact fun hsd => hne hsd.symm
              show Image.replay _ dest.pixels [{ srcId := sv, payload := q }]
                = some (combine dest.pixels src.pixels q)
              rw [replay_cons_some _ _ _ _ _ hfs1]
              rfl
          · rw [if_neg hcase]
            obtain ⟨hv, hrf, hrd, hcache, hemp, hentries, hreplay⟩ :=
              hinv.2 j hj
            refine ⟨hv, hrf, hrd, hcache, hemp, ?_, ?_⟩
            · intro e he
              obtain ⟨g1, g2, g3⟩ := hentries e he
              refine ⟨g1, g2, ?_⟩
              rw [isLive_eq_of_map_id_eq _ s _ _]
              · exact g3
              · exact hidmap
            · rw [replay_congr _ s j.drawLog j.basePixels ?_]
              · exact hreplay
              · intro e he
                obtain ⟨g1, g2, g3⟩ := hentries e he
                rw [findImg_setImg_ne]
                show e.srcId ≠ dest.id
                rw [hdest_id]
                exact fun hsd => g2 (hsd ▸ hdT)
      rw [hdraw]
      unfold Images.resetPixelsIfDependingOn
      by_cases hlc : (setImg s { dest with
          pixels := combine dest.pixels src.pixels q,
          drawLog := dest.drawLog ++ [{ srcId := sv, payload := q }],
          pixelCache := none,
          stale := false }).lastChecked = some d
      · simp only [hlc, if_true]
        exact hinv1
      · simp only [hlc, if_false]
        exact DrawInv_map_stale_only s0 T _ d (some d) hinv1

theorem DrawInv_applyDraws (s0 : Images) (T : List Nat) :
    ∀ ds : List (Nat × Nat × Nat), ∀ s : Images, DrawInv s0 T s →
    (∀ p ∈ ds, p.1 ∈ T ∧ p.2.1 ∉ T ∧ p.1 ≠ p.2.1) →
    DrawInv s0 T (applyDraws s ds) := by
  intro ds
  induction ds with
  | nil => intro s hinv _; exact hinv
  | cons p rest ih =>
    intro s hinv hds
    have hstep : applyDraws s (p :: rest)
        = applyDraws (draw s p.1 p.2.1 p.2.2) rest := rfl
    rw [hstep]
    obtain ⟨h1, h2, h3⟩ := hds p (by simp)
    exact ih (draw s p.1 p.2.1 p.2.2)
      (DrawInv_draw s0 T s p.1 p.2.1 p.2.2 hinv h1 h2 h3)
      (fun p2 hp2 => hds p2 (by simp [hp2]))

theorem restoreSeq_roundtrip (f : Images) (lc : Option Nat)
    (hnd : (f.images.map Image.id).Nodup)
    (hI : ∀ img ∈ f.images, img.volatile = false ∧ img.restoreFails = false
      ∧ Image.replay f img.basePixels img.drawLog = some img.pixels) :
    ∀ ids R, (∀ i ∈ ids, isLive f i = true) →
    Images.restoreSeq
        { images := f.images.map (resMark R), lastChecked := lc } ids
      = (none,
         { images := f.images.map (resMark (ids ++ R)), lastChecked := lc },
         ids.map Event.restoreImg) := by
  intro ids
  induction ids with
  | nil => intro R _; rfl
  | cons i rest ih =>
    intro R h
    obtain ⟨imgf, hffind⟩ := findImg_some_of_isLive f i (h i (by simp))
    have himgf_mem : imgf ∈ f.images := (findImg_mem f i imgf hffind).1
    have himgf_id : imgf.id = i := (findImg_mem f i imgf hffind).2
    have hfind : findImg
        { images := f.images.map (resMark R), lastChecked := lc } i
          = some (resMark R imgf) := by
      rw [findImg_map_of_id_preserving _ (resMark_id R) f.images lc i]
      have hfi : f.images.find? (fun img => img.id = i) = some imgf := hffind
      rw [hfi]
      rfl
    obtain ⟨hvol, hrf, hrepl⟩ := hI imgf himgf_mem
    have hpix : ∀ j : Nat,
        (findImg { images := f.images.map (resMark R), lastChecked := lc }
          j).map Image.pixels = (findImg f j).map Image.pixels :=
      fun j => findImg_pixels_of_pixel_preserving _ (resMark_id R)
        (resMark_pixels R) f lc j
    have h1 : (resMark R imgf).restoreFails = false := by
      rw [resMark_restoreFails]; exact hrf
    have h2 : (resMark R imgf).volatile = false := by
      rw [resMark_volatile]; exact hvol
    have h3 : Image.replay
        { images := f.images.map (resMark R), lastChecked := lc }
        (resMark R imgf).basePixels (resMark R imgf).drawLog
          = some imgf.pixels := by
      rw [resMark_basePixels, resMark_drawLog]
      rw [replay_congr _ f imgf.drawLog imgf.basePixels
        (fun e _ => hpix e.srcId)]
      exact hrepl
    have hrestore : Image.restore
        { images := f.images.map (resMark R), lastChecked := lc }
        (resMark R imgf) = Except.ok (cleanImg imgf) := by
      unfold Image.restore
      rw [h1, h2, h3]
      simp only [Bool.false_eq_true, if_false]
      unfold resMark cleanImg
      by_cases hm : imgf.id ∈ R <;> simp [hm, hvol, hrf]
    have hstate : setImg
        { images := f.images.map (resMark R), lastChecked := lc }
        (cleanImg imgf)
          = { images := f.images.map (resMark (i :: R)), lastChecked := lc } := by
      unfold setImg
      simp only [List.map_map]
      congr 1
      apply List.map_congr_left
      intro a ha
      show (if (resMark R a).id = (cleanImg imgf).id
          then cleanImg imgf else resMark R a) = resMark (i :: R) a
      rw [resMark_id, cleanImg_id, himgf_id]
      by_cases hai : a.id = i
      · rw [if_pos hai]
        have haeq : a = imgf :=
          List.inj_on_of_nodup_map hnd ha himgf_mem (by rw [hai, himgf_id])
        rw [haeq]
        unfold resMark
        rw [if_pos (by simp [himgf_id] : imgf.id ∈ i :: R)]
      · rw [if_neg hai]
        unfold resMark
        by_cases har : a.id ∈ R
        · rw [if_pos har, if_pos (by simp [har])]
        · rw [if_neg har, if_neg (by simp [hai, har])]
    rw [restoreSeq_cons_ok _ i rest (resMark R imgf) (cleanImg imgf)
      hfind hrestore, hstate]
    have hlive2 : ∀ j ∈ rest, isLive f j = true :=
      fun j hj => h j (by simp [hj])
    rw [ih (i :: R) hlive2]
    have hmarks : f.images.map (resMark (rest ++ i :: R))
        = f.images.map (resMark ((i :: rest) ++ R)) :=
      List.map_congr_left (fun a _ => resMark_congr _ _
        (fun x => by simp [List.mem_append, List.mem_cons]; tauto) a)
    rw [hmarks]
    rfl

/-- C2: round-trip correctness of restore for draw sequences of
dependency depth at most 2 and no cycles (encoded as: no draw's source
is ever any draw's destination, and no draw targets its own source).
Starting from healthy base images (empty logs, pixels equal to the
uploaded base), after an arbitrary such draw sequence the registry's
restore pass succeeds, and `readPixels` on every image afterwards
yields exactly the pre-loss pixel content. -/
theorem restore_roundtrip (s0 : Images) (ds : List (Nat × Nat × Nat))
    (hnd : (s0.images.map Image.id).Nodup)
    (hinit : ∀ img ∈ s0.images, img.volatile = false
      ∧ img.restoreFails = false ∧ img.readFails = false
      ∧ img.pixelCache = none ∧ img.drawLog = []
      ∧ img.pixels = img.basePixels)
    (hds : ∀ p ∈ ds, p.1 ≠ p.2.1 ∧ p.2.1 ∉ ds.map (fun x => x.1)) :
    (Images.restore (applyDraws s0 ds)).1 = none
    ∧ ∀ img ∈ (applyDraws s0 ds).images,
        ∃ img2 ∈ (Images.restore (applyDraws s0 ds)).2.1.images,
          img2.id = img.id
          ∧ Image.readPixels img2 = Except.ok img.pixels
          ∧ Image.readPixels img = Except.ok img.pixels := by
  have hinv0 : DrawInv s0 (ds.map (fun x => x.1)) s0 :=
    DrawInv_init s0 _ hinit
  have hinvf : DrawInv s0 (ds.map (fun x => x.1)) (applyDraws s0 ds) :=
    DrawInv_applyDraws s0 _ ds s0 hinv0
      (fun p hp => ⟨List.mem_map_of_mem _ hp, (hds p hp).2, (hds p hp).1⟩)
  have hfnd : ((applyDraws s0 ds).images.map Image.id).Nodup := by
    rw [hinvf.1]; exact hnd
  have hI : ∀ img ∈ (applyDraws s0 ds).images,
      img.volatile = false ∧ img.restoreFails = false
      ∧ Image.replay (applyDraws s0 ds) img.basePixels img.drawLog
          = some img.pixels :=
    fun img hm => ⟨(hinvf.2 img hm).1, (hinvf.2 img hm).2.1,
      (hinvf.2 img hm).2.2.2.2.2.2⟩
  have hlive : ∀ i ∈ Images.restoreOrder (applyDraws s0 ds),
      isLive (applyDraws s0 ds) i = true :=
    fun i hi => isLive_of_mem_restoreOrder _ i hi
  have hres0 : (applyDraws s0 ds).images.map (resMark [])
      = (applyDraws s0 ds).images := by
    have hid2 : ∀ a ∈ (applyDraws s0 ds).images, resMark [] a = id a := by
      intro a _
      unfold resMark
      simp
    rw [List.map_congr_left hid2, List.map_id]
  have hstart : ({ images := (applyDraws s0 ds).images.map (resMark [])
                 , lastChecked := (applyDraws s0 ds).lastChecked } : Images)
        = applyDraws s0 ds := by
    rw [hres0]
  have hmain := restoreSeq_roundtrip (applyDraws s0 ds)
    (applyDraws s0 ds).lastChecked hfnd hI
    (Images.restoreOrder (applyDraws s0 ds)) [] hlive
  rw [hstart] at hmain
  have hrest : Images.restore (applyDraws s0 ds)
      = (none
        , { images := (applyDraws s0 ds).images.map
              (resMark (Images.restoreOrder (applyDraws s0 ds) ++ []))
          , lastChecked := (applyDraws s0 ds).lastChecked }
        , (Images.restoreOrder (applyDraws s0 ds)).map Event.restoreImg) :=
    hmain
  constructor
  · rw [hrest]
  · intro img hm
    obtain ⟨hv, hrf2, hrd, hcache, _hemp, _hent, _hrep⟩ := hinvf.2 img hm
    refine ⟨resMark (Images.restoreOrder (applyDraws s0 ds) ++ []) img,
      ?_, by rw [resMark_id], ?_, ?_⟩
    · rw [hrest]
      exact List.mem_map_of_mem _ hm
    · have hcache2 : (resMark
          (Images.restoreOrder (applyDraws s0 ds) ++ []) img).pixelCache
            = none := by
        unfold resMark
        by_cases hmem : img.id ∈ Images.restoreOrder (applyDraws s0 ds) ++ []
        · rw [if_pos hmem]; rfl
        · rw [if_neg hmem]; exact hcache
      have hrd2 : (resMark
          (Images.restoreOrder (applyDraws s0 ds) ++ []) img).readFails
            = false := by
        rw [resMark_readFails]; exact hrd
      rw [readPixels_of_cache_none _ hcache2 hrd2, resMark_pixels]
    · rw [readPixels_of_cache_none img hcache hrd]

def exC2 : Images :=
  { images := [{ id := 1, basePixels := 5, pixels := 5,
                 drawLog := [], pixelCache := none, stale := false,
                 volatile := false, readFails := false,
                 restoreFails := false },
               { id := 2, basePixels := 7, pixels := 7,
                 drawLog := [], pixelCache := none, stale := false,
                 volatile := false, readFails := false,
                 restoreFails := false }],
    lastChecked := none }

/-- Witness for C2 at a concrete two-image state with one draw. -/
theorem restore_roundtrip_witness :
    (Images.restore (applyDraws exC2 [(2, 1, 3)])).1 = none :=
  (restore_roundtrip exC2 [(2, 1, 3)] (by decide) (by decide) (by decide)).1
